import Mathlib

/-!
Verification of the galileo token-dispensing bot against its sources.

The development shallowly embeds the two source files.

`src/responder/response.rs`: the `Response` data type and its
`Response::summary` rendering function.  Rust `String`s are modelled as
`List Char` (`Str`), so string concatenation is list append and the rendered
text can be analysed with list lemmas.  The admin-mention string produced by
the external chat collaborator (the inner `mention_admins` helper reads it
from the serenity cache) is passed in as a parameter.

`src/opt/serve.rs`: the `Serve` options structure and `Serve::exec`.
`exec` is a sequential, fallible start-up procedure followed by a three-way
supervisor `select`; it is embedded as a function from the configuration and
an environment (the outcomes of the external operations, in program order)
to the ordered list of start-up events it performed together with its
result, `none` standing for "never returns".
-/

namespace Galileo

/-- Rust `String` modelled as a list of characters. -/
abbrev Str := List Char

/-- Data model `Value` (`penumbra_crypto::Value`): a typed amount.  The
amount (a `u128` wrapper in the source) is modelled as `Nat`;
`v.amount.value().is_zero()` is `v.amount = 0`. -/
structure Value where
  denom : String
  amount : Nat
deriving DecidableEq, Repr

/-- The `Response` struct of `src/responder/response.rs`, with `Address`
modelled by its rendered (display) form, a `Str`. -/
structure Response where
  succeeded : List (Str × List Value)
  failed : List (Str × Str)
  unparsed : List Str
  remaining : List Str
deriving DecidableEq, Repr

/-- Header pushed for the succeeded section (`response.rs` line 33); note it
carries no leading newline, being the first push. -/
def sHeader : Str := "Successfully sent tokens to the following addresses:".data

/-- Header pushed for the failed section (`response.rs` line 40); the source
pushes it with no leading newline. -/
def fHeader : Str := "Failed to send tokens to the following addresses:".data

/-- Header of the unparsed section (`response.rs` lines 52-55), without its
leading newline; the Rust string continuation joins the two literal lines
with a single space. -/
def uHeader : Str :=
  "The following _look like_ Penumbra addresses, but are invalid (maybe a typo or old address version?):".data

/-- Header of the remaining section (`response.rs` lines 62-66), without its
leading newline.  The number interpolated by `format!` is
`self.succeeded.len()` in the source, rendered in decimal. -/
def rHeader (n : Nat) : Str :=
  "I\x27m only allowed to send tokens to addresses ".data ++ (Nat.repr n).data
    ++ " at a time; try again later to get tokens for the following addresses:".data

/-- One pushed per-address chunk: `format!("\n`{}`", addr)`. -/
def addressLine (a : Str) : Str := "\n`".data ++ a ++ "`".data

/-- One pushed per-failure chunk: `format!("\n`{}` (error: {})", addr, error)`. -/
def failedChunk (p : Str × Str) : Str :=
  "\n`".data ++ p.1 ++ "` (error: ".data ++ p.2 ++ ")".data

/-- The operator-escalation line (`response.rs` lines 45-48) without its
leading newline: the admin mentions followed by the fixed escalation text. -/
def escalationLine (m : Str) : Str :=
  m ++ ": you may want to investigate this error :)".data

/-- Embedding of `Response::summary` (`response.rs` lines 13-73).  The
mutable `response` string built by successive `push_str` calls is threaded
through shadowing `let`s; each loop is the corresponding `foldl`.  The
string produced by the inner `mention_admins` helper (external serenity
cache data) is the parameter `mentionAdmins`. -/
def summary (r : Response) (mentionAdmins : Str) : Str :=
  let response : Str := []
  let response :=
    if r.succeeded.isEmpty then response else
      r.succeeded.foldl (fun response p => response ++ addressLine p.1)
        (response ++ sHeader)
  let response :=
    if r.failed.isEmpty then response else
      (r.failed.foldl (fun response p => response ++ failedChunk p)
        (response ++ fHeader))
      ++ ("\n".data ++ escalationLine mentionAdmins)
  let response :=
    if r.unparsed.isEmpty then response else
      r.unparsed.foldl (fun response s => response ++ addressLine s)
        (response ++ "\n".data ++ uHeader)
  let response :=
    if r.remaining.isEmpty then response else
      r.remaining.foldl (fun response a => response ++ addressLine a)
        (response ++ "\n".data ++ rHeader r.succeeded.length)
  response

/-- The succeeded section of the rendered summary: empty exactly when the
list is empty, otherwise the header followed by one backtick-quoted line per
succeeded address, in list order. -/
def sectSucceeded (r : Response) : Str :=
  if r.succeeded.isEmpty then [] else
    sHeader ++ (r.succeeded.map (fun p => addressLine p.1)).flatten

/-- The failed section of the rendered summary: empty exactly when the list
is empty, otherwise the header, one line per `(address, error)` pair in list
order, and the operator-escalation line. -/
def sectFailed (r : Response) (m : Str) : Str :=
  if r.failed.isEmpty then [] else
    fHeader ++ (r.failed.map failedChunk).flatten ++ "\n".data ++ escalationLine m

/-- The unparsed section of the rendered summary: empty exactly when the
list is empty, otherwise the header and one line per unparsed string, in
list order. -/
def sectUnparsed (r : Response) : Str :=
  if r.unparsed.isEmpty then [] else
    "\n".data ++ uHeader ++ (r.unparsed.map addressLine).flatten

/-- The remaining section of the rendered summary: empty exactly when the
list is empty, otherwise the header (which interpolates
`r.succeeded.length`) and one line per remaining address, in list order. -/
def sectRemaining (r : Response) : Str :=
  if r.remaining.isEmpty then [] else
    "\n".data ++ rHeader r.succeeded.length ++ (r.remaining.map addressLine).flatten

/-- Content of a backtick-quoted per-address line, without the preceding
newline separator: `addressLine a = '\n' :: wrapTicks a`. -/
def wrapTicks (a : Str) : Str := "`".data ++ a ++ "`".data

/-- Content of a per-failure line, without the preceding newline separator:
`failedChunk p = '\n' :: failedLine p`. -/
def failedLine (p : Str × Str) : Str :=
  "`".data ++ p.1 ++ "` (error: ".data ++ p.2 ++ ")".data

/-- Append `extra` to the last line of a list of lines (of the empty list of
lines, a single line `extra`).  This is how a pushed chunk that carries no
leading newline attaches to the line before it. -/
def appendToLast (extra : Str) : List Str → List Str
  | [] => [extra]
  | [l] => [l ++ extra]
  | l :: l' :: rest => l :: appendToLast extra (l' :: rest)

/-- The lines contributed by the unparsed and remaining sections: their
headers and per-entry chunks are all pushed with a leading newline, so each
is a full line of its own. -/
def tailLines (r : Response) : List Str :=
  (if r.unparsed.isEmpty then [] else uHeader :: r.unparsed.map wrapTicks)
  ++ (if r.remaining.isEmpty then [] else
        rHeader r.succeeded.length :: r.remaining.map wrapTicks)

/-- The lines contributed by the succeeded and failed sections.  Both
headers are pushed without a leading newline: when both sections are present
the failed header therefore attaches to the last succeeded line
(`appendToLast`); when neither is present but a later section is, the
summary starts with that section's newline, so the first line is empty. -/
def headLines (r : Response) (m : Str) : List Str :=
  match r.succeeded.isEmpty, r.failed.isEmpty with
  | true, true => [[]]
  | true, false => fHeader :: (r.failed.map failedLine ++ [escalationLine m])
  | false, true => sHeader :: r.succeeded.map (fun p => wrapTicks p.1)
  | false, false =>
      sHeader :: (appendToLast fHeader (r.succeeded.map (fun p => wrapTicks p.1))
        ++ r.failed.map failedLine ++ [escalationLine m])

/-- The rendered summary as a list of newline-free lines (provided no
component string contains a newline): `summary r m` is these lines joined
with the newline separator. -/
def summaryLines (r : Response) (m : Str) : List Str := headLines r m ++ tailLines r

/-- No address, error text, unparsed string or remaining address of the
response contains a newline character (true of real bech32 addresses). -/
def noNewlines (r : Response) : Prop :=
  (∀ p ∈ r.succeeded, '\n' ∉ p.1) ∧ (∀ p ∈ r.failed, '\n' ∉ p.1 ∧ '\n' ∉ p.2)
  ∧ (∀ s ∈ r.unparsed, '\n' ∉ s) ∧ (∀ a ∈ r.remaining, '\n' ∉ a)

instance (r : Response) : Decidable (noNewlines r) := by
  unfold noNewlines; infer_instance

/-- One `--catch-up` argument (`src/opt/serve.rs` lines 52-57), a channel
and message id pair; the ids are opaque here. -/
structure ChannelIdAndMessageId where
  channel_id : Nat
  message_id : Nat
deriving DecidableEq, Repr

/-- The `Serve` options struct (`src/opt/serve.rs` lines 28-63).  Durations
and ids are opaque `Nat`s; `data_dir` and `node` are opaque; the
`source_address` (`AddressIndex`) is modelled by its index. -/
structure Serve where
  fee : Nat
  rate_limit : Nat
  reply_limit : Nat
  max_addresses : Nat
  data_dir : Option String
  node : String
  source_address : Nat
  catch_up : List ChannelIdAndMessageId
  catch_up_batch_size : Nat
  values : List Value
deriving DecidableEq, Repr

/-- A configuration equal to `s` except for the `fee` flag. -/
def setFee (s : Serve) (f : Nat) : Serve :=
  ⟨f, s.rate_limit, s.reply_limit, s.max_addresses, s.data_dir, s.node,
    s.source_address, s.catch_up, s.catch_up_batch_size, s.values⟩

/-- A configuration equal to `s` except for the `source_address` flag. -/
def setSourceAddress (s : Serve) (x : Nat) : Serve :=
  ⟨s.fee, s.rate_limit, s.reply_limit, s.max_addresses, s.data_dir, s.node,
    x, s.catch_up, s.catch_up_batch_size, s.values⟩

/-- The observable start-up steps `Serve::exec` performs, in program order.
Constructor events record the arguments the source passes: `builtSender`
records the literal first argument of `Sender::new` (line 130),
`builtResponder` the cap and values handed to `Responder::new` (line 133). -/
inductive Event where
  | validatedValues : Event
  | gotDiscordToken : Event
  | createdDataDir : Event
  | loadedWallet : Event
  | initializedViewStorage : Event
  | builtViewService : Event
  | synchronized : Event
  | builtSender : Nat → Event
  | builtResponder : Nat → List Value → Event
  | builtHandler : Event
  | builtClient : Event
  | insertedRequestQueue : Event
  | spawnedCatchup : Event
deriving DecidableEq, Repr

/-- Discriminator for `Event.builtSender`. -/
def Event.isBuiltSender : Event → Bool
  | Event.builtSender _ => true
  | _ => false

/-- Discriminator for `Event.builtResponder`. -/
def Event.isBuiltResponder : Event → Bool
  | Event.builtResponder _ _ => true
  | _ => false

deriving instance DecidableEq for Except

/-- Which branch of the final `tokio::select!` (`serve.rs` lines 184-190)
resolves first, and with what outcome.  The catchup branch carries the
results of the individual catch-up workers in completion order. -/
inductive SelectOutcome where
  | client : Except String Unit → SelectOutcome
  | responder : Except String Unit → SelectOutcome
  | catchup : List (Except String Unit) → SelectOutcome
deriving DecidableEq, Repr

/-- Outcomes of the external, fallible operations `Serve::exec` performs, in
program order.  Each `Except` value is the operation's result with its error
already rendered to a message (the `anyhow` context wrapping applied by the
callee's own `?` sites is folded into the message). -/
structure Env where
  discordToken : Option String
  createDirResult : Except String Unit
  walletLoadResult : Except String Unit
  viewPathUtf8 : Bool
  viewStorageResult : Except String Unit
  viewServiceResult : Except String Unit
  syncResult : Except String Unit
  clientBuildResult : Except String Unit
  select : SelectOutcome
deriving DecidableEq, Repr

/-- The `anyhow::Context::context` wrapper applied to a result: errors gain
a prefix, successes pass through. -/
def withContext (c : String) : Except String Unit → Except String Unit
  | Except.ok u => Except.ok u
  | Except.error e => Except.error (c ++ ": " ++ e)

/-- Outcome of the spawned catch-up supervisor task (`serve.rs` lines
155-181): it drains worker results in completion order, propagating the
first error (`result??`); when every worker has completed successfully it
awaits `std::future::pending()`, so it never completes — `none`. -/
def catchupTaskOutcome : List (Except String Unit) → Option String
  | [] => none
  | Except.ok _ :: rest => catchupTaskOutcome rest
  | Except.error e :: _ => some e

/-- The fallible start-up steps of `Serve::exec` after value validation and
before any service is constructed, in source order (lines 73-128), each
paired with its outcome from the environment: reading `DISCORD_TOKEN`,
creating the data directory, loading the wallet, checking the view path is
UTF-8 and loading view storage, building the view service, and the one-time
blocking chain synchronization (`status_stream` + `try_collect`). -/
def steps (env : Env) : List (Event × Except String Unit) :=
  [ (Event.gotDiscordToken,
      match env.discordToken with
      | some _ => Except.ok ()
      | none => Except.error "missing environment variable DISCORD_TOKEN"),
    (Event.createdDataDir, env.createDirResult),
    (Event.loadedWallet, env.walletLoadResult),
    (Event.initializedViewStorage,
      if env.viewPathUtf8 then env.viewStorageResult
      else Except.error "Non-UTF8 view path"),
    (Event.builtViewService, env.viewServiceResult),
    (Event.synchronized, env.syncResult) ]

/-- Run a `?`-chained sequence of fallible steps: the events of the steps
that succeeded before the first failure, and the first error if any. -/
def runSteps : List (Event × Except String Unit) → List Event × Option String
  | [] => ([], none)
  | (ev, Except.ok _) :: rest =>
      let r := runSteps rest
      (ev :: r.1, r.2)
  | (_, Except.error e) :: _ => ([], some e)

/-- Embedding of `Serve::exec` (`src/opt/serve.rs` lines 65-192) as the
ordered list of start-up events it performs and its result: `some r` when
`exec` returns `r`, `none` when it never returns.  Validation of the
configured values (lines 67-71) happens first; then the fallible prelude
(`steps`), aborting at the first error; then `Sender::new(0, ...)`,
`Responder::new(sender, max_addresses, values)` and `Handler::new` (lines
130-135, infallible); then the fallible discord client build (lines
138-143); then the request queue handle is stored and the catch-up
supervisor spawned (lines 145-181); finally the three-way `select!` (lines
184-190) returns the first branch to complete — the catch-up branch
completes only when a worker fails (`catchupTaskOutcome`). -/
def exec (s : Serve) (env : Env) : List Event × Option (Except String Unit) :=
  if s.values.isEmpty then
    ([], some (Except.error "at least one value must be provided"))
  else if s.values.any (fun v => v.amount == 0) then
    ([], some (Except.error "all values must be non-zero"))
  else
    match runSteps (steps env) with
    | (tr, some e) => (Event.validatedValues :: tr, some (Except.error e))
    | (tr, none) =>
      let events := Event.validatedValues :: tr
        ++ [Event.builtSender 0,
            Event.builtResponder s.max_addresses s.values,
            Event.builtHandler]
      match env.clientBuildResult with
      | Except.error e => (events, some (Except.error e))
      | Except.ok _ =>
        let events := events
          ++ [Event.builtClient, Event.insertedRequestQueue, Event.spawnedCatchup]
        match env.select with
        | SelectOutcome.client r =>
            (events, some (withContext "error in discord client service" r))
        | SelectOutcome.responder r =>
            (events, some (withContext "error in responder service" r))
        | SelectOutcome.catchup rs =>
            match catchupTaskOutcome rs with
            | some e => (events, some (Except.error e))
            | none => (events, none)

/-- Modelled from the spec: the Responder's per-request dispatch loop
(`src/responder.rs` is not among the provided sources; only the `Response`
type it produces is).  Following the spec's data model (`remaining` is a
sequence of addresses, not raw strings) and its worked example, the raw
strings are first validated (`parse`), invalid ones collected under
`unparsed`; of the addresses that parse, the first `max_addresses` are
dispatched through the transfer worker — a success appends `(address,
configured values)` to `succeeded`, a failure `(address, error)` to
`failed`, one failure never aborting the batch — and the rest become
`remaining` without any attempt. -/
def dispense (maxAddresses : Nat) (values : List Value)
    (parse : Str → Option Str) (transfer : Str → Except Str Unit)
    (raw : List Str) : Response :=
  let parsed := raw.filterMap parse
  let unparsed := raw.filter (fun s => (parse s).isNone)
  let toProcess := parsed.take maxAddresses
  let remaining := parsed.drop maxAddresses
  let succeeded := toProcess.filterMap (fun a =>
    match transfer a with
    | Except.ok _ => some (a, values)
    | Except.error _ => none)
  let failed := toProcess.filterMap (fun a =>
    match transfer a with
    | Except.ok _ => none
    | Except.error e => some (a, e))
  ⟨succeeded, failed, unparsed, remaining⟩

/-- The address validator of the spec's worked example: `bad-addr` is the
one address-like string that fails validation. -/
def exampleParse : Str → Option Str :=
  fun s => if s = "bad-addr".data then none else some s

/-- The raw address strings of the spec's worked example. -/
def exampleRaw : List Str := ["addrA".data, "addrB".data, "bad-addr".data]

/-- A concrete valid configuration: cap 1, one positive value, two catch-up
targets. -/
def serveExample : Serve :=
  ⟨0, 86400, 5, 1, none, "http://node.example", 0, [⟨1, 10⟩, ⟨2, 20⟩], 25,
    [⟨"test", 10⟩]⟩

/-- An environment in which every external operation succeeds and the
`select!` resolves as given. -/
def envAllOk (sel : SelectOutcome) : Env :=
  ⟨some "token", Except.ok (), Except.ok (), true, Except.ok (), Except.ok (),
    Except.ok (), Except.ok (), sel⟩

theorem foldl_append_flatten {α : Type} (f : α → Str) :
    ∀ (l : List α) (init : Str),
      l.foldl (fun acc x => acc ++ f x) init = init ++ (l.map f).flatten
  | [], init => by simp
  | x :: l, init => by
    rw [List.foldl_cons, foldl_append_flatten f l (init ++ f x)]
    simp

/-- Shared decomposition of the rendered summary into its four sections. -/
theorem summary_eq_sections (r : Response) (m : Str) :
    summary r m = sectSucceeded r ++ sectFailed r m ++ sectUnparsed r ++ sectRemaining r := by
  unfold summary sectSucceeded sectFailed sectUnparsed sectRemaining
  by_cases hs : r.succeeded.isEmpty <;> by_cases hf : r.failed.isEmpty <;>
    by_cases hu : r.unparsed.isEmpty <;> by_cases hr : r.remaining.isEmpty <;>
      simp [hs, hf, hu, hr, foldl_append_flatten, List.append_assoc]

/-- C1: the rendered summary is exactly the concatenation, in the fixed
order succeeded, failed, unparsed, remaining, of one section per list, where
each section is empty exactly when its list is empty and otherwise consists
of its header followed by one line per listed entry in list order (see
`sectSucceeded`, `sectFailed`, `sectUnparsed`, `sectRemaining`). -/
theorem summary_sections_present_iff_nonempty (r : Response) (m : Str) :
    summary r m = sectSucceeded r ++ sectFailed r m ++ sectUnparsed r ++ sectRemaining r
    ∧ (sectSucceeded r = [] ↔ r.succeeded = [])
    ∧ (sectFailed r m = [] ↔ r.failed = [])
    ∧ (sectUnparsed r = [] ↔ r.unparsed = [])
    ∧ (sectRemaining r = [] ↔ r.remaining = []) := by
  refine ⟨summary_eq_sections r m, ?_, ?_, ?_, ?_⟩ <;>
    constructor <;> intro h
  · by_cases hs : r.succeeded.isEmpty
    · exact List.isEmpty_iff.mp hs
    · simp [sectSucceeded, hs, sHeader] at h
  · simp [sectSucceeded, h]
  · by_cases hf : r.failed.isEmpty
    · exact List.isEmpty_iff.mp hf
    · simp [sectFailed, hf, fHeader] at h
  · simp [sectFailed, h]
  · by_cases hu : r.unparsed.isEmpty
    · exact List.isEmpty_iff.mp hu
    · simp [sectUnparsed, hu] at h
  · simp [sectUnparsed, h]
  · by_cases hr : r.remaining.isEmpty
    · exact List.isEmpty_iff.mp hr
    · simp [sectRemaining, hr] at h
  · simp [sectRemaining, h]

/-- C9: when both the succeeded and failed lists are non-empty, the failed
header is appended directly after the last succeeded-address line, with no
newline between them (the source pushes the failed header without a leading
newline), so it shares that line. -/
theorem summary_failed_header_shares_line (r : Response) (m : Str)
    (hs : r.succeeded ≠ []) (hf : r.failed ≠ []) :
    ∃ pre post,
      summary r m = pre ++ (addressLine (r.succeeded.getLast hs).1 ++ fHeader) ++ post := by
  refine ⟨sHeader ++ ((r.succeeded.dropLast).map (fun p => addressLine p.1)).flatten,
    (r.failed.map failedChunk).flatten ++ "\n".data ++ escalationLine m
      ++ sectUnparsed r ++ sectRemaining r, ?_⟩
  rw [summary_eq_sections r m]
  have h1 : sectSucceeded r
      = sHeader ++ (((r.succeeded.dropLast).map (fun p => addressLine p.1)).flatten
          ++ addressLine (r.succeeded.getLast hs).1) := by
    unfold sectSucceeded
    rw [if_neg (by simp [hs])]
    conv_lhs => rw [← List.dropLast_append_getLast hs]
    simp
  have h2 : sectFailed r m
      = fHeader ++ ((r.failed.map failedChunk).flatten ++ "\n".data ++ escalationLine m) := by
    unfold sectFailed
    rw [if_neg (by simp [hf])]
    simp
  rw [h1, h2]
  simp only [List.append_assoc]

theorem c9_witness :
    ∃ pre post,
      summary ⟨[("a".data, [])], [("b".data, "e".data)], [], []⟩ []
        = pre ++ (addressLine "a".data ++ fHeader) ++ post := by
  exact summary_failed_header_shares_line
    ⟨[("a".data, [])], [("b".data, "e".data)], [], []⟩ [] (by decide) (by decide)

theorem digitChar_ne_newline (n : Nat) : Nat.digitChar n ≠ '\n' := by
  rcases Nat.lt_or_ge n 16 with hlt | hge
  · interval_cases n <;> decide
  · have e0 : n ≠ 0 := by omega
    have e1 : n ≠ 1 := by omega
    have e2 : n ≠ 2 := by omega
    have e3 : n ≠ 3 := by omega
    have e4 : n ≠ 4 := by omega
    have e5 : n ≠ 5 := by omega
    have e6 : n ≠ 6 := by omega
    have e7 : n ≠ 7 := by omega
    have e8 : n ≠ 8 := by omega
    have e9 : n ≠ 9 := by omega
    have e10 : n ≠ 10 := by omega
    have e11 : n ≠ 11 := by omega
    have e12 : n ≠ 12 := by omega
    have e13 : n ≠ 13 := by omega
    have e14 : n ≠ 14 := by omega
    have e15 : n ≠ 15 := by omega
    simp [Nat.digitChar, e0, e1, e2, e3, e4, e5, e6, e7, e8, e9, e10, e11, e12,
      e13, e14, e15]

theorem toDigitsCore_ne_newline (b : Nat) :
    ∀ (fuel n : Nat) (acc : List Char), (∀ c ∈ acc, c ≠ '\n') →
      ∀ c ∈ Nat.toDigitsCore b fuel n acc, c ≠ '\n'
  | 0, n, acc, hacc => by
    intro c hc
    simp only [Nat.toDigitsCore] at hc
    exact hacc c hc
  | fuel + 1, n, acc, hacc => by
    have hacc' : ∀ c ∈ (n % b).digitChar :: acc, c ≠ '\n' := by
      intro c hc
      rcases List.mem_cons.mp hc with h | h
      · rw [h]; exact digitChar_ne_newline _
      · exact hacc c h
    intro c hc
    simp only [Nat.toDigitsCore] at hc
    split at hc
    · exact hacc' c hc
    · exact toDigitsCore_ne_newline b fuel (n / b) _ hacc' c hc

/-- Decimal renderings of numbers contain no newline, so the remaining
header is a single line. -/
theorem newline_not_mem_repr (n : Nat) : '\n' ∉ (Nat.repr n).data := by
  intro h
  exact toDigitsCore_ne_newline 10 (n + 1) n [] (by simp) '\n' h rfl

theorem addressLine_eq_cons : addressLine = fun a => '\n' :: wrapTicks a := rfl

theorem failedChunk_eq_cons : failedChunk = fun p => '\n' :: failedLine p := rfl

theorem intercalate_newline_cons :
    ∀ (a : Str) (t : List Str),
      List.intercalate ['\n'] (a :: t) = a ++ (t.map (fun l => '\n' :: l)).flatten
  | _, [] => by simp [List.intercalate, List.intersperse]
  | a, b :: t => by
    have ih := intercalate_newline_cons b t
    simp only [List.intercalate] at ih ⊢
    rw [show List.intersperse ['\n'] (a :: b :: t) = a :: ['\n'] :: List.intersperse ['\n'] (b :: t)
      from rfl]
    simp only [List.flatten_cons]
    rw [ih]
    simp

theorem appendToLast_flatten (e : Str) :
    ∀ (L : List Str), L ≠ [] →
      ((appendToLast e L).map (fun l => '\n' :: l)).flatten
        = (L.map (fun l => '\n' :: l)).flatten ++ e
  | [], h => absurd rfl h
  | [l], _ => by simp [appendToLast]
  | l :: l' :: rest, _ => by
    have ih := appendToLast_flatten e (l' :: rest) (by simp)
    simp only [appendToLast, List.map_cons, List.flatten_cons, ih]
    simp

theorem intercalate_newline_append (H T : List Str) (h : H ≠ []) :
    List.intercalate ['\n'] (H ++ T)
      = List.intercalate ['\n'] H ++ (T.map (fun l => '\n' :: l)).flatten := by
  cases H with
  | nil => exact absurd rfl h
  | cons h₀ hrest =>
    rw [List.cons_append, intercalate_newline_cons, intercalate_newline_cons]
    simp [List.append_assoc]

theorem headLines_ne_nil (r : Response) (m : Str) : headLines r m ≠ [] := by
  unfold headLines
  by_cases hs : r.succeeded.isEmpty <;> by_cases hf : r.failed.isEmpty <;>
    simp [hs, hf]

theorem tail_sections_eq (r : Response) :
    sectUnparsed r ++ sectRemaining r = ((tailLines r).map (fun l => '\n' :: l)).flatten := by
  unfold sectUnparsed sectRemaining tailLines
  by_cases hu : r.unparsed.isEmpty <;> by_cases hr : r.remaining.isEmpty <;>
    simp [hu, hr, addressLine_eq_cons, List.map_map, Function.comp_def, List.append_assoc]

theorem head_sections_eq (r : Response) (m : Str) :
    sectSucceeded r ++ sectFailed r m = List.intercalate ['\n'] (headLines r m) := by
  unfold sectSucceeded sectFailed headLines
  by_cases hs : r.succeeded.isEmpty <;> by_cases hf : r.failed.isEmpty
  · simp [hs, hf, List.intercalate, List.intersperse]
  · simp only [hs, hf, Bool.false_eq_true, if_false, if_true]
    rw [intercalate_newline_cons]
    simp [addressLine_eq_cons, failedChunk_eq_cons, List.map_map, Function.comp_def,
      List.append_assoc]
  · simp only [hs, hf, Bool.false_eq_true, if_false, if_true]
    rw [intercalate_newline_cons]
    simp [addressLine_eq_cons, List.map_map, Function.comp_def, List.append_assoc]
  · simp only [hs, hf, Bool.false_eq_true, if_false]
    rw [intercalate_newline_cons]
    have hsne : r.succeeded.map (fun p => wrapTicks p.1) ≠ [] := by
      intro h
      rw [List.map_eq_nil_iff] at h
      rw [h] at hs
      simp at hs
    simp only [List.map_append, List.flatten_append]
    rw [appendToLast_flatten _ _ hsne]
    simp [addressLine_eq_cons, failedChunk_eq_cons, List.map_map, Function.comp_def,
      List.append_assoc]

/-- Shared line decomposition: the rendered summary is its lines joined with
newlines. -/
theorem summary_eq_intercalate (r : Response) (m : Str) :
    summary r m = List.intercalate ['\n'] (summaryLines r m) := by
  rw [summary_eq_sections r m, summaryLines,
    intercalate_newline_append _ _ (headLines_ne_nil r m), ← head_sections_eq,
    ← tail_sections_eq]
  simp [List.append_assoc]

theorem newline_not_mem_sHeader : '\n' ∉ sHeader := by decide

theorem newline_not_mem_fHeader : '\n' ∉ fHeader := by decide

theorem newline_not_mem_uHeader : '\n' ∉ uHeader := by decide

theorem newline_not_mem_rHeader (n : Nat) : '\n' ∉ rHeader n := by
  intro hc
  simp only [rHeader, List.mem_append] at hc
  rcases hc with (hc | hc) | hc
  · exact absurd hc (by decide)
  · exact newline_not_mem_repr _ hc
  · exact absurd hc (by decide)

theorem newline_not_mem_wrapTicks {a : Str} (h : '\n' ∉ a) : '\n' ∉ wrapTicks a := by
  intro hc
  simp only [wrapTicks, List.mem_append] at hc
  rcases hc with (hc | hc) | hc
  · exact absurd hc (by decide)
  · exact h hc
  · exact absurd hc (by decide)

theorem newline_not_mem_failedLine {p : Str × Str} (h1 : '\n' ∉ p.1) (h2 : '\n' ∉ p.2) :
    '\n' ∉ failedLine p := by
  intro hc
  simp only [failedLine, List.mem_append] at hc
  rcases hc with (((hc | hc) | hc) | hc) | hc
  · exact absurd hc (by decide)
  · exact h1 hc
  · exact absurd hc (by decide)
  · exact h2 hc
  · exact absurd hc (by decide)

theorem newline_not_mem_escalationLine {m : Str} (hm : '\n' ∉ m) :
    '\n' ∉ escalationLine m := by
  intro hc
  rcases List.mem_append.mp hc with hc | hc
  · exact hm hc
  · exact absurd hc (by decide)

theorem appendToLast_newline_free (e : Str) (he : '\n' ∉ e) :
    ∀ (L : List Str), (∀ x ∈ L, '\n' ∉ x) → ∀ l ∈ appendToLast e L, '\n' ∉ l
  | [], _ => by
    intro l hl
    simp only [appendToLast, List.mem_singleton] at hl
    subst hl; exact he
  | [x], hL => by
    intro l hl
    simp only [appendToLast, List.mem_singleton] at hl
    subst hl
    intro hc
    rcases List.mem_append.mp hc with hc | hc
    · exact hL x (by simp) hc
    · exact he hc
  | x :: y :: rest, hL => by
    intro l hl
    simp only [appendToLast] at hl
    rcases List.mem_cons.mp hl with rfl | hl
    · exact hL l (by simp)
    · exact appendToLast_newline_free e he (y :: rest)
        (fun z hz => hL z (List.mem_cons_of_mem x hz)) l hl

theorem tailLines_newline_free (r : Response)
    (h3 : ∀ s ∈ r.unparsed, '\n' ∉ s) (h4 : ∀ a ∈ r.remaining, '\n' ∉ a) :
    ∀ l ∈ tailLines r, '\n' ∉ l := by
  intro l hl
  unfold tailLines at hl
  rcases List.mem_append.mp hl with hl | hl
  · rcases Bool.eq_false_or_eq_true r.unparsed.isEmpty with hu | hu
    · rw [if_pos hu] at hl
      exact absurd hl (List.not_mem_nil l)
    · rw [if_neg (by simp [hu])] at hl
      rcases List.mem_cons.mp hl with rfl | hl
      · exact newline_not_mem_uHeader
      · obtain ⟨a, ha, rfl⟩ := List.mem_map.mp hl
        exact newline_not_mem_wrapTicks (h3 a ha)
  · rcases Bool.eq_false_or_eq_true r.remaining.isEmpty with hrr | hrr
    · rw [if_pos hrr] at hl
      exact absurd hl (List.not_mem_nil l)
    · rw [if_neg (by simp [hrr])] at hl
      rcases List.mem_cons.mp hl with rfl | hl
      · exact newline_not_mem_rHeader _
      · obtain ⟨a, ha, rfl⟩ := List.mem_map.mp hl
        exact newline_not_mem_wrapTicks (h4 a ha)

theorem headLines_newline_free (r : Response) (m : Str)
    (h1 : ∀ p ∈ r.succeeded, '\n' ∉ p.1)
    (h2 : ∀ p ∈ r.failed, '\n' ∉ p.1 ∧ '\n' ∉ p.2) (hm : '\n' ∉ m) :
    ∀ l ∈ headLines r m, '\n' ∉ l := by
  intro l hl
  unfold headLines at hl
  rcases Bool.eq_false_or_eq_true r.succeeded.isEmpty with hs | hs <;>
    rcases Bool.eq_false_or_eq_true r.failed.isEmpty with hfE | hfE <;>
      simp only [hs, hfE] at hl
  · -- both empty: the single empty line
    rw [List.mem_singleton.mp hl]
    exact List.not_mem_nil _
  · -- succeeded empty, failed non-empty
    rcases List.mem_cons.mp hl with rfl | hl
    · exact newline_not_mem_fHeader
    rcases List.mem_append.mp hl with hl | hl
    · obtain ⟨p, hp, rfl⟩ := List.mem_map.mp hl
      exact newline_not_mem_failedLine (h2 p hp).1 (h2 p hp).2
    · rw [List.mem_singleton.mp hl]
      exact newline_not_mem_escalationLine hm
  · -- succeeded non-empty, failed empty
    rcases List.mem_cons.mp hl with rfl | hl
    · exact newline_not_mem_sHeader
    · obtain ⟨p, hp, rfl⟩ := List.mem_map.mp hl
      exact newline_not_mem_wrapTicks (h1 p hp)
  · -- both non-empty: merged succeeded/failed-header line, failures, escalation
    rcases List.mem_cons.mp hl with rfl | hl
    · exact newline_not_mem_sHeader
    rcases List.mem_append.mp hl with hl | hl
    · rcases List.mem_append.mp hl with hl | hl
      · refine appendToLast_newline_free fHeader newline_not_mem_fHeader _ ?_ l hl
        intro x hx
        obtain ⟨p, hp, rfl⟩ := List.mem_map.mp hx
        exact newline_not_mem_wrapTicks (h1 p hp)
      · obtain ⟨p, hp, rfl⟩ := List.mem_map.mp hl
        exact newline_not_mem_failedLine (h2 p hp).1 (h2 p hp).2
    · rw [List.mem_singleton.mp hl]
      exact newline_not_mem_escalationLine hm

theorem wrapTicks_getLast (a : Str) : (wrapTicks a).getLast? = some '`' := by
  rw [show wrapTicks a = ('`' :: a) ++ ['`'] from rfl, List.getLast?_concat]

theorem rHeader_getLast (n : Nat) : (rHeader n).getLast? = some ':' := by
  unfold rHeader
  rw [List.getLast?_append_of_ne_nil _ (by decide)]
  decide

theorem escalationLine_getLast (m : Str) : (escalationLine m).getLast? = some ')' := by
  unfold escalationLine
  rw [List.getLast?_append_of_ne_nil _ (by decide)]
  decide

theorem summaryLines_getLast_of_failed_nil (r : Response) (m : Str)
    (hf : r.failed = []) : ∀ l ∈ summaryLines r m, l.getLast? ≠ some ')' := by
  have key : ∀ l' : Str,
      (l' = [] ∨ l' = sHeader ∨ l' = uHeader ∨ l' = rHeader r.succeeded.length
        ∨ (∃ a, l' = wrapTicks a)) → l'.getLast? ≠ some ')' := by
    rintro l' (rfl | rfl | rfl | rfl | ⟨a, rfl⟩)
    · decide
    · decide
    · decide
    · rw [rHeader_getLast]; decide
    · rw [wrapTicks_getLast]; decide
  intro l hl
  have hfE : r.failed.isEmpty = true := by simp [hf]
  have tail : ∀ l ∈ tailLines r,
      l = ([] : Str) ∨ l = sHeader ∨ l = uHeader ∨ l = rHeader r.succeeded.length
        ∨ (∃ a, l = wrapTicks a) := by
    intro l hl
    unfold tailLines at hl
    rcases List.mem_append.mp hl with hl | hl
    · rcases Bool.eq_false_or_eq_true r.unparsed.isEmpty with hu | hu
      · rw [if_pos hu] at hl
        exact absurd hl (List.not_mem_nil l)
      · rw [if_neg (by simp [hu])] at hl
        rcases List.mem_cons.mp hl with rfl | hl
        · exact Or.inr (Or.inr (Or.inl rfl))
        · obtain ⟨a, _, rfl⟩ := List.mem_map.mp hl
          exact Or.inr (Or.inr (Or.inr (Or.inr ⟨a, rfl⟩)))
    · rcases Bool.eq_false_or_eq_true r.remaining.isEmpty with hrr | hrr
      · rw [if_pos hrr] at hl
        exact absurd hl (List.not_mem_nil l)
      · rw [if_neg (by simp [hrr])] at hl
        rcases List.mem_cons.mp hl with rfl | hl
        · exact Or.inr (Or.inr (Or.inr (Or.inl rfl)))
        · obtain ⟨a, _, rfl⟩ := List.mem_map.mp hl
          exact Or.inr (Or.inr (Or.inr (Or.inr ⟨a, rfl⟩)))
  unfold summaryLines headLines at hl
  rcases Bool.eq_false_or_eq_true r.succeeded.isEmpty with hs | hs <;>
    simp only [hs, hfE] at hl <;> refine key l ?_
  · rcases List.mem_append.mp hl with hl | hl
    · rw [List.mem_singleton.mp hl]
      exact Or.inl rfl
    · exact tail l hl
  · rcases List.mem_append.mp hl with hl | hl
    · rcases List.mem_cons.mp hl with rfl | hl
      · exact Or.inr (Or.inl rfl)
      · obtain ⟨p, _, rfl⟩ := List.mem_map.mp hl
        exact Or.inr (Or.inr (Or.inr (Or.inr ⟨p.1, rfl⟩)))
    · exact tail l hl

/-- C3: with respect to the canonical decomposition of the rendered summary
into newline-free lines joined by newlines (assuming, as for real bech32
addresses and admin mentions, that no component contains a newline), the
operator-escalation line — the admin mentions followed by the fixed
escalation text — is one of the summary's lines if and only if the failed
list is non-empty. -/
theorem summary_escalation_line_iff_failed (r : Response) (m : Str)
    (hr : noNewlines r) (hm : '\n' ∉ m) :
    ∃ lines : List Str,
      summary r m = List.intercalate ['\n'] lines
      ∧ (∀ l ∈ lines, '\n' ∉ l)
      ∧ (escalationLine m ∈ lines ↔ r.failed ≠ []) := by
  obtain ⟨h1, h2, h3, h4⟩ := hr
  refine ⟨summaryLines r m, summary_eq_intercalate r m, ?_, ?_⟩
  · intro l hl
    rcases List.mem_append.mp hl with hl | hl
    · exact headLines_newline_free r m h1 h2 hm l hl
    · exact tailLines_newline_free r h3 h4 l hl
  · constructor
    · intro hmem
      intro hfnil
      exact summaryLines_getLast_of_failed_nil r m hfnil _ hmem (escalationLine_getLast m)
    · intro hf
      have hfE : r.failed.isEmpty = false := by
        rcases Bool.eq_false_or_eq_true r.failed.isEmpty with h | h
        · exact absurd (List.isEmpty_iff.mp h) hf
        · exact h
      unfold summaryLines headLines
      rcases Bool.eq_false_or_eq_true r.succeeded.isEmpty with hs | hs <;>
        simp only [hs, hfE] <;> simp

theorem c3_witness :
    ∃ lines : List Str,
      summary ⟨[], [("b".data, "e".data)], [], []⟩ "m".data
          = List.intercalate ['\n'] lines
      ∧ (∀ l ∈ lines, '\n' ∉ l)
      ∧ (escalationLine "m".data ∈ lines
          ↔ (Response.mk [] [("b".data, "e".data)] [] []).failed ≠ []) :=
  summary_escalation_line_iff_failed ⟨[], [("b".data, "e".data)], [], []⟩ "m".data
    (by decide) (by decide)

theorem runSteps_mem_steps :
    ∀ (l : List (Event × Except String Unit)), ∀ ev ∈ (runSteps l).1, ev ∈ l.map Prod.fst
  | [] => by intro ev h; simp [runSteps] at h
  | (e, Except.ok u) :: rest => by
    intro ev h
    simp only [runSteps] at h
    rcases List.mem_cons.mp h with rfl | h
    · simp
    · exact List.mem_cons_of_mem _ (runSteps_mem_steps rest ev h)
  | (e, Except.error msg) :: rest => by
    intro ev h
    simp only [runSteps] at h
    exact absurd h (List.not_mem_nil ev)

theorem runSteps_none_complete :
    ∀ (l : List (Event × Except String Unit)),
      (runSteps l).2 = none → (runSteps l).1 = l.map Prod.fst
  | [] => by intro _; rfl
  | (e, Except.ok u) :: rest => by
    intro h
    simp only [runSteps] at h ⊢
    simp [runSteps_none_complete rest h]
  | (e, Except.error msg) :: rest => by
    intro h
    simp [runSteps] at h

theorem runSteps_some_of_mem_error :
    ∀ (l : List (Event × Except String Unit)) (p : Event × Except String Unit),
      p ∈ l → p.2.isOk = false → (runSteps l).2 ≠ none
  | [], p => by intro h _; simp at h
  | (e, Except.ok u) :: rest, p => by
    intro hmem hko
    rcases List.mem_cons.mp hmem with rfl | hmem
    · simp [Except.isOk, Except.toBool] at hko
    · simp only [runSteps]
      exact runSteps_some_of_mem_error rest p hmem hko
  | (e, Except.error msg) :: rest, p => by
    intro _ _
    simp [runSteps]

/-- Case analysis of `exec` on a validly-configured `Serve`: either the
prelude fails at some step and `exec` returns that error having performed
only the successful prefix, or the whole prelude succeeds, services are
constructed, and the result is decided by the client build and the
`select!`. -/
theorem exec_cases (s : Serve) (env : Env) (hv : s.values.isEmpty = false)
    (hz : s.values.any (fun v => v.amount == 0) = false) :
    (∃ tr e, runSteps (steps env) = (tr, some e)
        ∧ exec s env = (Event.validatedValues :: tr, some (Except.error e)))
    ∨ (runSteps (steps env) = ((steps env).map Prod.fst, none)
        ∧ ∃ rest res,
          exec s env = (Event.validatedValues :: (steps env).map Prod.fst
              ++ [Event.builtSender 0,
                  Event.builtResponder s.max_addresses s.values,
                  Event.builtHandler] ++ rest, res)
          ∧ ((rest = [] ∧ ∃ e, env.clientBuildResult = Except.error e
                ∧ res = some (Except.error e))
             ∨ (rest = [Event.builtClient, Event.insertedRequestQueue,
                    Event.spawnedCatchup]
                ∧ env.clientBuildResult = Except.ok ()
                ∧ ((∃ r, env.select = SelectOutcome.client r
                      ∧ res = some (withContext "error in discord client service" r))
                   ∨ (∃ r, env.select = SelectOutcome.responder r
                      ∧ res = some (withContext "error in responder service" r))
                   ∨ (∃ rs e, env.select = SelectOutcome.catchup rs
                      ∧ catchupTaskOutcome rs = some e ∧ res = some (Except.error e))
                   ∨ (∃ rs, env.select = SelectOutcome.catchup rs
                      ∧ catchupTaskOutcome rs = none ∧ res = none))))) := by
  rcases hrun : runSteps (steps env) with ⟨tr, err⟩
  cases err with
  | some e =>
    refine Or.inl ⟨tr, e, rfl, ?_⟩
    simp [exec, hv, hz, hrun]
  | none =>
    have htr : tr = (steps env).map Prod.fst := by
      have := runSteps_none_complete (steps env)
      rw [hrun] at this
      exact this rfl
    subst htr
    refine Or.inr ⟨rfl, ?_⟩
    cases hcb : env.clientBuildResult with
    | error e =>
      refine ⟨[], some (Except.error e), ?_, Or.inl ⟨rfl, e, rfl, rfl⟩⟩
      simp [exec, hv, hz, hrun, hcb]
    | ok u =>
      cases u
      cases hsel : env.select with
      | client r =>
        refine ⟨[Event.builtClient, Event.insertedRequestQueue, Event.spawnedCatchup],
          some (withContext "error in discord client service" r), ?_,
          Or.inr ⟨rfl, rfl, Or.inl ⟨r, rfl, rfl⟩⟩⟩
        simp [exec, hv, hz, hrun, hcb, hsel]
      | responder r =>
        refine ⟨[Event.builtClient, Event.insertedRequestQueue, Event.spawnedCatchup],
          some (withContext "error in responder service" r), ?_,
          Or.inr ⟨rfl, rfl, Or.inr (Or.inl ⟨r, rfl, rfl⟩)⟩⟩
        simp [exec, hv, hz, hrun, hcb, hsel]
      | catchup rs =>
        cases hco : catchupTaskOutcome rs with
        | some e =>
          refine ⟨[Event.builtClient, Event.insertedRequestQueue, Event.spawnedCatchup],
            some (Except.error e), ?_,
            Or.inr ⟨rfl, rfl, Or.inr (Or.inr (Or.inl ⟨rs, e, rfl, hco, rfl⟩))⟩⟩
          simp [exec, hv, hz, hrun, hcb, hsel, hco]
        | none =>
          refine ⟨[Event.builtClient, Event.insertedRequestQueue, Event.spawnedCatchup],
            none, ?_,
            Or.inr ⟨rfl, rfl, Or.inr (Or.inr (Or.inr ⟨rs, rfl, hco, rfl⟩))⟩⟩
          simp [exec, hv, hz, hrun, hcb, hsel, hco]

/-- C10: the behaviour of `Serve::exec` does not depend on the configured
`fee` flag — two configurations differing only in `fee` produce identical
traces and results, because `exec` never reads the parsed fee after argument
parsing. -/
theorem exec_independent_of_fee (s : Serve) (env : Env) (f : Nat) :
    exec (setFee s f) env = exec s env := rfl

theorem mem_builtSender_aux (tr rest : List Event) {a : Nat}
    (hnotr : ∀ b, Event.builtSender b ∉ tr)
    (hrest : ∀ b, Event.builtSender b ∈ rest → b = 0)
    (h : Event.builtSender a ∈ Event.validatedValues :: tr ++ rest) : a = 0 := by
  rcases List.mem_cons.mp h with h | h
  · simp at h
  · rcases List.mem_append.mp h with h | h
    · exact absurd h (hnotr a)
    · exact hrest a h

theorem builtSender_not_mem_stepEvents (env : Env) (b : Nat) :
    Event.builtSender b ∉ (steps env).map Prod.fst := by
  simp [steps]

/-- C6: `Serve::exec` never reads the configured `source_address`: two
configurations differing only in it behave identically, and whenever the
`Sender` is constructed its first argument is the literal `0` from the
source (`serve.rs` line 130), never the configured index. -/
theorem exec_ignores_source_address (s : Serve) (env : Env) (x : Nat) (a : Nat)
    (h : Event.builtSender a ∈ (exec s env).1) :
    exec (setSourceAddress s x) env = exec s env ∧ a = 0 := by
  refine ⟨rfl, ?_⟩
  rcases Bool.eq_false_or_eq_true s.values.isEmpty with hv | hv
  · rw [show exec s env = ([], some (Except.error "at least one value must be provided")) from by
      simp [exec, hv]] at h
    exact absurd h (List.not_mem_nil _)
  rcases Bool.eq_false_or_eq_true (s.values.any (fun v => v.amount == 0)) with hz | hz
  · have hz' : ∃ v ∈ s.values, v.amount = 0 := by simpa using hz
    rw [show exec s env = ([], some (Except.error "all values must be non-zero")) from by
      simp [exec, hv, hz']] at h
    exact absurd h (List.not_mem_nil _)
  rcases exec_cases s env hv hz with ⟨tr, e, hrun, hexec⟩ | ⟨hrun, rest, res, hexec, hrest⟩
  · rw [hexec] at h
    refine mem_builtSender_aux tr [] ?_ ?_ (by simpa using h)
    · intro b hb
      have hsub := runSteps_mem_steps (steps env) (Event.builtSender b)
      rw [hrun] at hsub
      exact builtSender_not_mem_stepEvents env b (hsub hb)
    · intro b hb
      exact absurd hb (List.not_mem_nil _)
  · rw [hexec, List.append_assoc] at h
    refine mem_builtSender_aux ((steps env).map Prod.fst)
      ([Event.builtSender 0, Event.builtResponder s.max_addresses s.values,
        Event.builtHandler] ++ rest) (fun b => builtSender_not_mem_stepEvents env b) ?_ h
    intro b hb
    rcases List.mem_append.mp hb with hb | hb
    · simp at hb
      exact hb
    · rcases hrest with ⟨h0, _⟩ | ⟨h0, _⟩ <;> subst h0 <;> simp at hb

theorem exec_ignores_source_address_witness :
    exec (setSourceAddress serveExample 5) (envAllOk (SelectOutcome.client (Except.ok ())))
        = exec serveExample (envAllOk (SelectOutcome.client (Except.ok ())))
    ∧ 0 = 0 :=
  exec_ignores_source_address serveExample (envAllOk (SelectOutcome.client (Except.ok ())))
    5 0 (by decide)

theorem validatedValues_not_mem_stepEvents (env : Env) :
    Event.validatedValues ∉ (steps env).map Prod.fst := by
  simp [steps]

theorem builtResponder_not_mem_stepEvents (env : Env) (n : Nat) (vs : List Value) :
    Event.builtResponder n vs ∉ (steps env).map Prod.fst := by
  simp [steps]

theorem count_validated_aux (tr rest : List Event)
    (htr : Event.validatedValues ∉ tr) (hrest : Event.validatedValues ∉ rest) :
    (Event.validatedValues :: tr ++ rest).count Event.validatedValues = 1 := by
  have hboth : Event.validatedValues ∉ tr ++ rest := by
    intro hmem
    rcases List.mem_append.mp hmem with hm | hm
    exacts [htr hm, hrest hm]
  rw [show Event.validatedValues :: tr ++ rest
      = Event.validatedValues :: (tr ++ rest) from rfl,
    List.count_cons_self, List.count_eq_zero.mpr hboth]

/-- C4: `Serve::exec` validates the configured values first, before
anything else: a configuration with no values or with a zero amount is
rejected with the corresponding error and an empty trace, and on a valid
configuration the validation event is the very first event of the trace,
occurs exactly once, and any `Responder` ever constructed receives exactly
the configured cap and the configured values, unchanged. -/
theorem exec_validates_values (s : Serve) (env : Env) :
    (s.values = [] →
        exec s env = ([], some (Except.error "at least one value must be provided")))
    ∧ ((s.values ≠ [] ∧ ∃ v ∈ s.values, v.amount = 0) →
        exec s env = ([], some (Except.error "all values must be non-zero")))
    ∧ ((s.values ≠ [] ∧ ∀ v ∈ s.values, v.amount ≠ 0) →
        (exec s env).1.head? = some Event.validatedValues
        ∧ (exec s env).1.count Event.validatedValues = 1
        ∧ ∀ n vs, Event.builtResponder n vs ∈ (exec s env).1
            → n = s.max_addresses ∧ vs = s.values) := by
  refine ⟨?_, ?_, ?_⟩
  · intro h
    simp [exec, h]
  · rintro ⟨hne, v, hv, hz⟩
    have h1 : s.values.isEmpty = false := List.isEmpty_eq_false.mpr hne
    have hz' : ∃ v ∈ s.values, v.amount = 0 := ⟨v, hv, hz⟩
    simp [exec, h1, hz']
  · rintro ⟨hne, hall⟩
    have h1 : s.values.isEmpty = false := List.isEmpty_eq_false.mpr hne
    have h2 : s.values.any (fun v => v.amount == 0) = false := by
      rcases Bool.eq_false_or_eq_true (s.values.any (fun v => v.amount == 0)) with h | h
      · exfalso
        obtain ⟨v, hv, hz⟩ := List.any_eq_true.mp h
        exact hall v hv (by simpa using hz)
      · exact h
    rcases exec_cases s env h1 h2 with ⟨tr, e, hrun, hexec⟩ | ⟨hrun, rest, res, hexec, hrest⟩
    · have hnv : Event.validatedValues ∉ tr := by
        intro hmem
        have hsub := runSteps_mem_steps (steps env) Event.validatedValues
        rw [hrun] at hsub
        exact validatedValues_not_mem_stepEvents env (hsub hmem)
      rw [hexec]
      refine ⟨rfl, ?_, ?_⟩
      · simpa using count_validated_aux tr [] hnv (by simp)
      · intro n vs hmem
        rcases List.mem_cons.mp hmem with hm | hm
        · simp at hm
        · exfalso
          have hsub := runSteps_mem_steps (steps env) (Event.builtResponder n vs)
          rw [hrun] at hsub
          exact builtResponder_not_mem_stepEvents env n vs (hsub hm)
    · have hrest' : rest = []
          ∨ rest = [Event.builtClient, Event.insertedRequestQueue, Event.spawnedCatchup] := by
        rcases hrest with ⟨h0, _⟩ | ⟨h0, _⟩
        · exact Or.inl h0
        · exact Or.inr h0
      rw [hexec]
      refine ⟨rfl, ?_, ?_⟩
      · rw [List.append_assoc]
        refine count_validated_aux _ _ (validatedValues_not_mem_stepEvents env) ?_
        intro hmem
        rcases List.mem_append.mp hmem with hm | hm
        · simp at hm
        · rcases hrest' with h0 | h0 <;> subst h0 <;> simp at hm
      · intro n vs hmem
        rcases List.mem_cons.mp hmem with hm | hm
        · simp at hm
        · rcases List.mem_append.mp hm with hm | hm
          · rcases List.mem_append.mp hm with hm | hm
            · exact absurd hm (builtResponder_not_mem_stepEvents env n vs)
            · simpa using hm
          · exfalso
            rcases hrest' with h0 | h0 <;> subst h0 <;> simp at hm

/-- C5: the one-time blocking ledger synchronization gates the services: if
it fails, `exec` returns an error and the trace contains no `Sender` or
`Responder` construction and no client start, so no request is ever served;
and whenever a `Sender` or `Responder` is constructed, the synchronization
event strictly precedes the first such construction in the trace. -/
theorem exec_sync_gates_services (s : Serve) (env : Env) :
    ((∃ e, env.syncResult = Except.error e) →
        (∃ msg, (exec s env).2 = some (Except.error msg))
        ∧ ∀ ev ∈ (exec s env).1,
            ev.isBuiltSender = false ∧ ev.isBuiltResponder = false
              ∧ ev ≠ Event.builtClient)
    ∧ (((exec s env).1.any Event.isBuiltSender = true
          ∨ (exec s env).1.any Event.isBuiltResponder = true) →
        Event.synchronized
          ∈ (exec s env).1.takeWhile
              (fun ev => !(ev.isBuiltSender || ev.isBuiltResponder))) := by
  constructor
  · rintro ⟨e, hsync⟩
    rcases Bool.eq_false_or_eq_true s.values.isEmpty with hv | hv
    · rw [show exec s env
          = ([], some (Except.error "at least one value must be provided")) from by
        simp [exec, hv]]
      exact ⟨⟨_, rfl⟩, fun ev h => absurd h (List.not_mem_nil ev)⟩
    rcases Bool.eq_false_or_eq_true (s.values.any (fun v => v.amount == 0)) with hz | hz
    · have hz' : ∃ v ∈ s.values, v.amount = 0 := by simpa using hz
      rw [show exec s env = ([], some (Except.error "all values must be non-zero")) from by
        simp [exec, hv, hz']]
      exact ⟨⟨_, rfl⟩, fun ev h => absurd h (List.not_mem_nil ev)⟩
    rcases exec_cases s env hv hz with ⟨tr, e', hrun, hexec⟩ | ⟨hrun, _, _, _, _⟩
    · rw [hexec]
      refine ⟨⟨e', rfl⟩, ?_⟩
      intro ev hmem
      rcases List.mem_cons.mp hmem with rfl | hm
      · exact ⟨rfl, rfl, by decide⟩
      · have hsub := runSteps_mem_steps (steps env) ev
        rw [hrun] at hsub
        have hins := hsub hm
        simp only [steps, List.map_cons, List.map_nil, List.mem_cons,
          List.not_mem_nil, or_false] at hins
        rcases hins with rfl | rfl | rfl | rfl | rfl | rfl <;> exact ⟨rfl, rfl, by decide⟩
    · exfalso
      have hne := runSteps_some_of_mem_error (steps env) (Event.synchronized, env.syncResult)
        (by simp [steps]) (by rw [hsync]; rfl)
      rw [hrun] at hne
      exact hne rfl
  · intro hany
    rcases Bool.eq_false_or_eq_true s.values.isEmpty with hv | hv
    · rw [show exec s env
          = ([], some (Except.error "at least one value must be provided")) from by
        simp [exec, hv]] at hany
      rcases hany with hany | hany <;> simp at hany
    rcases Bool.eq_false_or_eq_true (s.values.any (fun v => v.amount == 0)) with hz | hz
    · have hz' : ∃ v ∈ s.values, v.amount = 0 := by simpa using hz
      rw [show exec s env = ([], some (Except.error "all values must be non-zero")) from by
        simp [exec, hv, hz']] at hany
      rcases hany with hany | hany <;> simp at hany
    rcases exec_cases s env hv hz with ⟨tr, e', hrun, hexec⟩ | ⟨hrun, rest, res, hexec, hrest⟩
    · exfalso
      have hmemsteps : ∀ ev, ev ∈ tr → ev ∈ (steps env).map Prod.fst := by
        intro ev hm
        have hsub := runSteps_mem_steps (steps env) ev
        rw [hrun] at hsub
        exact hsub hm
      rw [hexec] at hany
      rcases hany with hany | hany <;>
        obtain ⟨ev, hmem, hP⟩ := List.any_eq_true.mp hany <;>
          rcases List.mem_cons.mp hmem with rfl | hm
      · exact absurd hP (by decide)
      · have hins := hmemsteps _ hm
        simp only [steps, List.map_cons, List.map_nil, List.mem_cons,
          List.not_mem_nil, or_false] at hins
        rcases hins with rfl | rfl | rfl | rfl | rfl | rfl <;> exact absurd hP (by decide)
      · exact absurd hP (by decide)
      · have hins := hmemsteps _ hm
        simp only [steps, List.map_cons, List.map_nil, List.mem_cons,
          List.not_mem_nil, or_false] at hins
        rcases hins with rfl | rfl | rfl | rfl | rfl | rfl <;> exact absurd hP (by decide)
    · rw [hexec]
      exact (by decide :
        Event.synchronized ∈ [Event.validatedValues, Event.gotDiscordToken,
          Event.createdDataDir, Event.loadedWallet, Event.initializedViewStorage,
          Event.builtViewService, Event.synchronized])

theorem catchupTaskOutcome_none_iff :
    ∀ rs : List (Except String Unit),
      catchupTaskOutcome rs = none ↔ ∀ x ∈ rs, x = Except.ok ()
  | [] => by simp [catchupTaskOutcome]
  | Except.ok u :: rest => by
    cases u
    simp only [catchupTaskOutcome]
    rw [catchupTaskOutcome_none_iff rest]
    constructor
    · intro h x hx
      rcases List.mem_cons.mp hx with rfl | hx
      exacts [rfl, h x hx]
    · intro h x hx
      exact h x (List.mem_cons_of_mem _ hx)
  | Except.error e :: rest => by
    constructor
    · intro h
      exact Option.noConfusion h
    · intro h
      exact absurd (h (Except.error e) (by simp)) (by simp)

/-- C7 (amended): the `select!` makes `exec` return whenever the chat client
service or the Responder completes, or when the catch-up group's task
completes — which happens exactly when some worker fails; when every
catch-up worker completes successfully the spawned catch-up task awaits
forever, so the group's successful completion does not make `exec` return. -/
theorem exec_supervises_tasks (s : Serve) (env : Env) :
    ((∃ r, env.select = SelectOutcome.client r) → (exec s env).2.isSome = true)
    ∧ ((∃ r, env.select = SelectOutcome.responder r) → (exec s env).2.isSome = true)
    ∧ (∀ rs e, env.select = SelectOutcome.catchup rs → catchupTaskOutcome rs = some e
        → (exec s env).2.isSome = true)
    ∧ (∀ rs, env.select = SelectOutcome.catchup rs → catchupTaskOutcome rs = none
        → Event.spawnedCatchup ∈ (exec s env).1 → (exec s env).2 = none)
    ∧ (∀ rs, catchupTaskOutcome rs = none ↔ ∀ x ∈ rs, x = Except.ok ()) := by
  have hIsSomeOfInvalid :
      s.values.isEmpty = true ∨ (s.values.isEmpty = false
        ∧ (s.values.any (fun v => v.amount == 0)) = true)
      → (exec s env).2.isSome = true := by
    rintro (hv | ⟨hv, hz⟩)
    · simp [exec, hv]
    · have hz' : ∃ v ∈ s.values, v.amount = 0 := by simpa using hz
      simp [exec, hv, hz']
  refine ⟨?_, ?_, ?_, ?_, catchupTaskOutcome_none_iff⟩
  · rintro ⟨r, hsel⟩
    rcases Bool.eq_false_or_eq_true s.values.isEmpty with hv | hv
    · exact hIsSomeOfInvalid (Or.inl hv)
    rcases Bool.eq_false_or_eq_true (s.values.any (fun v => v.amount == 0)) with hz | hz
    · exact hIsSomeOfInvalid (Or.inr ⟨hv, hz⟩)
    rcases exec_cases s env hv hz with ⟨tr, e, hrun, hexec⟩ | ⟨hrun, rest, res, hexec, hrest⟩
    · rw [hexec]; rfl
    · rcases hrest with ⟨_, e, _, hres⟩ | ⟨_, _, hinner⟩
      · rw [hexec, hres]; rfl
      · rcases hinner with ⟨r', _, hres⟩ | ⟨r', hsel', hres⟩ | ⟨rs, e, hsel', _, hres⟩
          | ⟨rs, hsel', _, hres⟩
        · rw [hexec, hres]; rfl
        · rw [hexec, hres]; rfl
        · rw [hexec, hres]; rfl
        · rw [hsel] at hsel'
          exact absurd hsel' (by simp)
  · rintro ⟨r, hsel⟩
    rcases Bool.eq_false_or_eq_true s.values.isEmpty with hv | hv
    · exact hIsSomeOfInvalid (Or.inl hv)
    rcases Bool.eq_false_or_eq_true (s.values.any (fun v => v.amount == 0)) with hz | hz
    · exact hIsSomeOfInvalid (Or.inr ⟨hv, hz⟩)
    rcases exec_cases s env hv hz with ⟨tr, e, hrun, hexec⟩ | ⟨hrun, rest, res, hexec, hrest⟩
    · rw [hexec]; rfl
    · rcases hrest with ⟨_, e, _, hres⟩ | ⟨_, _, hinner⟩
      · rw [hexec, hres]; rfl
      · rcases hinner with ⟨r', _, hres⟩ | ⟨r', hsel', hres⟩ | ⟨rs, e, hsel', _, hres⟩
          | ⟨rs, hsel', _, hres⟩
        · rw [hexec, hres]; rfl
        · rw [hexec, hres]; rfl
        · rw [hexec, hres]; rfl
        · rw [hsel] at hsel'
          exact absurd hsel' (by simp)
  · rintro rs e hsel hco
    rcases Bool.eq_false_or_eq_true s.values.isEmpty with hv | hv
    · exact hIsSomeOfInvalid (Or.inl hv)
    rcases Bool.eq_false_or_eq_true (s.values.any (fun v => v.amount == 0)) with hz | hz
    · exact hIsSomeOfInvalid (Or.inr ⟨hv, hz⟩)
    rcases exec_cases s env hv hz with ⟨tr, e', hrun, hexec⟩ | ⟨hrun, rest, res, hexec, hrest⟩
    · rw [hexec]; rfl
    · rcases hrest with ⟨_, e', _, hres⟩ | ⟨_, _, hinner⟩
      · rw [hexec, hres]; rfl
      · rcases hinner with ⟨r', _, hres⟩ | ⟨r', _, hres⟩ | ⟨rs', e', _, _, hres⟩
          | ⟨rs', hsel', hco', hres⟩
        · rw [hexec, hres]; rfl
        · rw [hexec, hres]; rfl
        · rw [hexec, hres]; rfl
        · rw [hsel] at hsel'
          have hrs : rs = rs' := by simpa using hsel'
          rw [← hrs, hco] at hco'
          exact Option.noConfusion hco'
  · rintro rs hsel hco hmem
    rcases Bool.eq_false_or_eq_true s.values.isEmpty with hv | hv
    · rw [show exec s env
          = ([], some (Except.error "at least one value must be provided")) from by
        simp [exec, hv]] at hmem
      exact absurd hmem (List.not_mem_nil _)
    rcases Bool.eq_false_or_eq_true (s.values.any (fun v => v.amount == 0)) with hz | hz
    · have hz' : ∃ v ∈ s.values, v.amount = 0 := by simpa using hz
      rw [show exec s env = ([], some (Except.error "all values must be non-zero")) from by
        simp [exec, hv, hz']] at hmem
      exact absurd hmem (List.not_mem_nil _)
    rcases exec_cases s env hv hz with ⟨tr, e', hrun, hexec⟩ | ⟨hrun, rest, res, hexec, hrest⟩
    · exfalso
      rw [hexec] at hmem
      rcases List.mem_cons.mp hmem with hm | hm
      · exact absurd hm (by decide)
      · have hsub := runSteps_mem_steps (steps env) Event.spawnedCatchup
        rw [hrun] at hsub
        have := hsub hm
        simp [steps] at this
    · rcases hrest with ⟨h0, e', _, hres⟩ | ⟨_, _, hinner⟩
      · exfalso
        subst h0
        rw [hexec] at hmem
        rcases List.mem_cons.mp hmem with hm | hm
        · exact absurd hm (by decide)
        · rcases List.mem_append.mp hm with hm | hm
          · rcases List.mem_append.mp hm with hm | hm
            · simp [steps] at hm
            · simp at hm
          · exact absurd hm (List.not_mem_nil _)
      · rcases hinner with ⟨r', hsel', hres⟩ | ⟨r', hsel', hres⟩ | ⟨rs', e', hsel', hco', hres⟩
          | ⟨rs', hsel', hco', hres⟩
        · rw [hsel] at hsel'
          exact absurd hsel' (by simp)
        · rw [hsel] at hsel'
          exact absurd hsel' (by simp)
        · exfalso
          rw [hsel] at hsel'
          have hrs : rs = rs' := by simpa using hsel'
          rw [← hrs, hco] at hco'
          exact Option.noConfusion hco'
        · rw [hexec, hres]

theorem dispense_process_length (values : List Value) (transfer : Str → Except Str Unit) :
    ∀ l : List Str,
      (l.filterMap (fun a => match transfer a with
        | Except.ok _ => some (a, values)
        | Except.error _ => none)).length
      + (l.filterMap (fun a => match transfer a with
        | Except.ok _ => none
        | Except.error e => some (a, e))).length = l.length
  | [] => rfl
  | a :: l => by
    have ih := dispense_process_length values transfer l
    rcases htr : transfer a with e | u <;>
      simp only [List.filterMap_cons, htr, List.length_cons] <;> omega

theorem length_filterMap_add_filter_isNone (parse : Str → Option Str) :
    ∀ l : List Str,
      (l.filterMap parse).length
        + (l.filter (fun s => (parse s).isNone)).length = l.length
  | [] => rfl
  | a :: l => by
    have ih := length_filterMap_add_filter_isNone parse l
    rcases hp : parse a with _ | b
    · have hb : (parse a).isNone = true := by rw [hp]; rfl
      rw [List.filterMap_cons_none hp, List.filter_cons]
      simp only [hb, if_true, List.length_cons]
      omega
    · have hb : (parse a).isNone = false := by rw [hp]; rfl
      rw [List.filterMap_cons_some hp, List.filter_cons]
      simp only [hb, Bool.false_eq_true, if_false, List.length_cons]
      omega

/-- C8 (counterexample): on the spec's own worked example — cap 1, values
`[test:10]`, input `[addrA, addrB, bad-addr]` — the Responder model
reproduces the spec's stated outcome exactly (succeeded `[addrA]`, failed
`[]`, unparsed `[bad-addr]`, remaining `[addrB]`), and on that outcome the
claimed invariant fails: `|succeeded|+|failed|+|unparsed| = 2 > 1 = N` and
`|remaining| = 1 ≠ 2 = M − N`. -/
theorem dispense_cap_invariant_fails_on_spec_example :
    dispense 1 [⟨"test", 10⟩] exampleParse (fun _ => Except.ok ()) exampleRaw
      = ⟨[("addrA".data, [⟨"test", 10⟩])], [], ["bad-addr".data], ["addrB".data]⟩
    ∧ ¬ ((dispense 1 [⟨"test", 10⟩] exampleParse (fun _ => Except.ok ())
            exampleRaw).succeeded.length
        + (dispense 1 [⟨"test", 10⟩] exampleParse (fun _ => Except.ok ())
            exampleRaw).failed.length
        + (dispense 1 [⟨"test", 10⟩] exampleParse (fun _ => Except.ok ())
            exampleRaw).unparsed.length ≤ 1
      ∧ (dispense 1 [⟨"test", 10⟩] exampleParse (fun _ => Except.ok ())
            exampleRaw).remaining.length = exampleRaw.length - 1) := by
  exact ⟨by decide, by decide⟩

/-- C8 (amended): with P the number of input strings that parse as
addresses, the dispatched portion satisfies `|succeeded| + |failed| =
min(N, P)`, the untried parsed remainder is `|remaining| = P − N`, and the
unparsed list collects every invalid string, `|unparsed| = M − P`; in
particular for `M ≤ N` the remaining list is empty. -/
theorem dispense_counts (N : Nat) (values : List Value) (parse : Str → Option Str)
    (transfer : Str → Except Str Unit) (raw : List Str) :
    (dispense N values parse transfer raw).succeeded.length
        + (dispense N values parse transfer raw).failed.length
      = min N (raw.filterMap parse).length
    ∧ (dispense N values parse transfer raw).remaining.length
        = (raw.filterMap parse).length - N
    ∧ (dispense N values parse transfer raw).unparsed.length
        = raw.length - (raw.filterMap parse).length
    ∧ (raw.length ≤ N → (dispense N values parse transfer raw).remaining = []) := by
  have hparse := length_filterMap_add_filter_isNone parse raw
  refine ⟨?_, ?_, ?_, ?_⟩
  · have hsum := dispense_process_length values transfer ((raw.filterMap parse).take N)
    simp only [dispense]
    rw [hsum, List.length_take]
  · simp only [dispense]
    rw [List.length_drop]
  · simp only [dispense]
    omega
  · intro hMN
    simp only [dispense]
    exact List.drop_eq_nil_of_le
      (le_trans (List.length_filterMap_le parse raw) hMN)

set_option maxRecDepth 4000 in
/-- C2 (code bug): a response produced with cap 1 whose single processed
address fails to transfer.  The remaining section header renders the number
`self.succeeded.len() = 0` — the summary contains "to addresses 0 at a
time" and not "to addresses 1 at a time" — although the configured cap
`max_addresses` is 1. -/
theorem remaining_header_counts_successes_not_cap :
    (dispense 1 [⟨"test", 10⟩] (fun s => some s)
        (fun _ => Except.error "rpc error".data) ["addrA".data, "addrB".data]).remaining ≠ []
    ∧ (" to addresses 0 at a time; ".data
        <:+: summary (dispense 1 [⟨"test", 10⟩] (fun s => some s)
          (fun _ => Except.error "rpc error".data) ["addrA".data, "addrB".data]) [])
    ∧ ¬ (" to addresses 1 at a time; ".data
        <:+: summary (dispense 1 [⟨"test", 10⟩] (fun s => some s)
          (fun _ => Except.error "rpc error".data) ["addrA".data, "addrB".data]) []) := by
  refine ⟨by decide, by decide, by decide⟩

/-- C7 (counterexample): with every external operation succeeding and both
catch-up workers completing successfully, the catch-up supervisor task never
completes (`std::future::pending`), so `exec` — which did spawn the
catch-up group — never returns; the group's successful completion does not
terminate the process. -/
theorem catchup_success_never_returns :
    Event.spawnedCatchup
        ∈ (exec serveExample
            (envAllOk (SelectOutcome.catchup [Except.ok (), Except.ok ()]))).1
    ∧ (exec serveExample
          (envAllOk (SelectOutcome.catchup [Except.ok (), Except.ok ()]))).2 = none := by
  exact ⟨by decide, rfl⟩

end Galileo
